import Mathlib

/-!
Verification development for the f-tedious library (src/lib/index.ts): an
f-streams (pull/push) adapter over the tedious SQL Server driver.  The two
exported functions, `reader` and `writer`, are event-driven state machines
over closure variables; we embed each as an explicit state record plus a
step function on external events, emitting the commands sent to the
connection (pause/resume/cancel/execute/unprepare) and the resolutions of
the single outstanding blocking call as an effect list.
-/

set_option maxHeartbeats 1000000

namespace FTedious

/-- JavaScript values, as far as the code observes them: rows and results are
tested for truthiness (`if (result)`), so we keep a small value universe with
the JS truthiness rule. -/
inductive JSVal where
  | vnull
  | vundef
  | vbool (b : Bool)
  | vnum (n : Int)
  | vstr (s : String)
deriving DecidableEq

/-- JS truthiness of a value. -/
def truthy : JSVal → Bool
  | .vnull => false
  | .vundef => false
  | .vbool b => b
  | .vnum n => n != 0
  | .vstr s => s != ""

/-- Truthiness of an optional value (`undefined` for `none`). -/
def optTruthy : Option JSVal → Bool
  | none => false
  | some v => truthy v

/-- Errors are opaque truthy objects; `none` models a null/undefined error. -/
abbrev Err := Nat

/-- JS `a || b` on nullable error objects (`error = error || err`). -/
def jsOr (a b : Option Err) : Option Err :=
  match a with
  | some e => some e
  | none => b

namespace Reader

/-- Which blocking call stored the pending callback: a pull (`read`) or a
`stop`. -/
inductive CbKind where
  | pull
  | stop
deriving DecidableEq

/-- The reader's closure state: `error`, `callback` (here `cbKind`, recording
whether and which call is outstanding), `stopped`, `done`, `paused`, the
`received` buffer, whether the `request` reference is still held, and whether
the optional `opts.close` hook is still unconsumed. -/
structure St where
  error : Option Err
  cbKind : Option CbKind
  stopped : Bool
  done : Bool
  paused : Bool
  received : List JSVal
  request : Bool
  closeHook : Bool
deriving DecidableEq

/-- `low` watermark (source: `low = 0`). -/
def low : Nat := 0

/-- `high` watermark (source: `high = 2`). -/
def high : Nat := 2

/-- Commands issued to the session/transport and resolutions delivered to the
caller of the blocking read/stop calls. -/
inductive Eff where
  | pause
  | resume
  | cancel
  | resolve (k : CbKind) (e : Option Err) (r : Option JSVal)
  | closeCall
deriving DecidableEq

/-- `push(record)`: append to the buffer; pause the socket exactly when the
new length equals `high`. -/
def push (c : St) (v : JSVal) : St × List Eff :=
  let recd := c.received ++ [v]
  if recd.length = high then
    ({ c with received := recd, paused := true }, [.pause])
  else
    ({ c with received := recd }, [])

/-- `shift()`: resume the socket when the current length is `low + 1`, then
remove and return the buffer head. -/
def shift (c : St) : St × List Eff × Option JSVal :=
  let pr :=
    if c.received.length = low + 1 then
      ({ c with paused := false }, [Eff.resume])
    else (c, ([] : List Eff))
  ({ pr.1 with received := pr.1.received.tail }, pr.2, pr.1.received.head?)

/-- `send(err, result)`: take the stored callback; if present, deliver a
truthy result directly (else mark `done` and deliver end-of-stream); if
absent, cache the error and enqueue a truthy result (else mark `done`). -/
def send (c : St) (err : Option Err) (result : Option JSVal) : St × List Eff :=
  let cbk := c.cbKind
  let c1 := { c with cbKind := none }
  match cbk with
  | some k =>
    if optTruthy result then (c1, [.resolve k err result])
    else ({ c1 with done := true }, [.resolve k none none])
  | none =>
    let c2 := { c1 with error := jsOr c1.error err }
    if optTruthy result then push c2 (result.getD .vundef)
    else ({ c2 with done := true }, [])

/-- The read function handed to `devices.generic.reader`: report a cached
error first, else dequeue a buffered row, else report end-of-stream when
`done`, else store the callback. -/
def read (c : St) : St × List Eff :=
  match c.error with
  | some e =>
    ({ c with request := false }, [.resolve .pull (some e) none])
  | none =>
    if c.received ≠ [] then
      let pr := shift c
      (pr.1, pr.2.1 ++ [.resolve .pull none pr.2.2])
    else if c.done then
      ({ c with request := false }, [.resolve .pull none none])
    else
      ({ c with cbKind := some .pull }, [])

/-- The stop function: resolve immediately when already `done`, else mark
stopped, cancel the connection and store the callback. -/
def stop (c : St) : St × List Eff :=
  if c.done then (c, [.resolve .stop none none])
  else ({ c with stopped := true, cbKind := some .stop }, [.cancel])

/-- External events driving one reader: a `row` event, the request completion
callback, and the caller's pull and stop calls. -/
inductive Ev where
  | row (v : JSVal)
  | complete (e : Option Err)
  | pull
  | stop
deriving DecidableEq

/-- `request.on('row')`: discard when stopped, else `send(null, row)`. -/
def onRow (c : St) (v : JSVal) : St × List Eff :=
  if c.stopped then (c, []) else send c none (some v)

/-- The `tds.Request` completion callback: drop the request reference and
`send(stopped ? null : err)`. -/
def onComplete (c : St) (e : Option Err) : St × List Eff :=
  let c1 := { c with request := false }
  send c1 (if c.stopped then none else e) none

/-- One un-wrapped step of the reader machine. -/
def stepCore (c : St) (e : Ev) : St × List Eff :=
  match e with
  | .row v => onRow c v
  | .complete err => onComplete c err
  | .pull => read c
  | .stop => stop c

/-- Does an effect resolve the outstanding blocking call? -/
def isResolve : Eff → Bool
  | .resolve _ _ _ => true
  | _ => false

/-- `withClose`: both read and stop are wrapped in try/finally, so the first
call whose result is delivered to the caller consumes the `opts.close` hook
(invoking it once, right after the resolution) and nulls it. -/
def wrap (p : St × List Eff) : St × List Eff :=
  if p.1.closeHook && p.2.any isResolve then
    ({ p.1 with closeHook := false }, p.2 ++ [.closeCall])
  else p

/-- One full step of the reader machine, hook wrapping included. -/
def step (c : St) (e : Ev) : St × List Eff :=
  wrap (stepCore c e)

/-- Run the reader machine over a list of events, accumulating effects. -/
def run (c : St) : List Ev → St × List Eff
  | [] => (c, [])
  | e :: es => ((run (step c e).1 es).1, (step c e).2 ++ (run (step c e).1 es).2)

/-- Initial reader state (`hook` records whether `opts.close` was given). -/
def init (hook : Bool) : St :=
  { error := none, cbKind := none, stopped := false, done := false,
    paused := false, received := [], request := true, closeHook := hook }

/-- What one pull (or stop) call observes: a row value, end-of-stream, or an
error thrown by the bridge. -/
inductive RRes where
  | row (v : JSVal)
  | endOfStream
  | err (e : Err)
deriving DecidableEq

/-- How f-promise `wait` interprets `cb(err, result)`. -/
def interp (e : Option Err) (r : Option JSVal) : RRes :=
  match e with
  | some x => .err x
  | none =>
    match r with
    | some v => .row v
    | none => .endOfStream

/-- The sequence of values returned by successive pulls. -/
def pullResults : List Eff → List RRes
  | [] => []
  | .resolve .pull e r :: effs => interp e r :: pullResults effs
  | .resolve .stop _ _ :: effs => pullResults effs
  | .pause :: effs => pullResults effs
  | .resume :: effs => pullResults effs
  | .cancel :: effs => pullResults effs
  | .closeCall :: effs => pullResults effs

/-- The sequence of values returned by stop calls. -/
def stopResults : List Eff → List RRes
  | [] => []
  | .resolve .stop e r :: effs => interp e r :: stopResults effs
  | .resolve .pull _ _ :: effs => stopResults effs
  | .pause :: effs => stopResults effs
  | .resume :: effs => stopResults effs
  | .cancel :: effs => stopResults effs
  | .closeCall :: effs => stopResults effs

/-- Events that are not blocking calls from the caller. -/
def callFree : Ev → Bool
  | .pull => false
  | .stop => false
  | _ => true

/-- A trace is valid when each blocking call starts only while no other call
is outstanding (the f-promise bridge allows a single outstanding call). -/
def validFrom (c : St) : List Ev → Bool
  | [] => true
  | e :: es => (callFree e || c.cbKind == none) && validFrom (step c e).1 es

/-- Values carried by the row events of a trace, in order. -/
def rowValues : List Ev → List JSVal
  | [] => []
  | .row v :: es => v :: rowValues es
  | .complete _ :: es => rowValues es
  | .pull :: es => rowValues es
  | .stop :: es => rowValues es

/-- Number of pull events in a trace. -/
def pullCount : List Ev → Nat
  | [] => 0
  | .pull :: es => pullCount es + 1
  | .row _ :: es => pullCount es
  | .complete _ :: es => pullCount es
  | .stop :: es => pullCount es

/-- Events of the streaming phase: truthy rows and pulls. -/
def phase1Ev : Ev → Bool
  | .row v => truthy v
  | .pull => true
  | .complete _ => false
  | .stop => false

/-- 1 when a pull call is outstanding. -/
def pendN (c : St) : Nat :=
  if c.cbKind = some CbKind.pull then 1 else 0

/-- Streaming-phase invariant: no error cached, not stopped, not done, and an
outstanding pull exists only with an empty buffer. -/
def Inv1 (c : St) : Prop :=
  c.error = none ∧ c.stopped = false ∧ c.done = false ∧
    (c.cbKind = none ∨ (c.cbKind = some CbKind.pull ∧ c.received = []))

/-- Buffer operations, for the watermark claims about `push`/`shift`. -/
inductive BufOp where
  | push (v : JSVal)
  | shift
deriving DecidableEq

/-- One buffer operation. -/
def stepBuf (c : St) : BufOp → St × List Eff
  | .push v => push c v
  | .shift => ((shift c).1, (shift c).2.1)

/-- Run buffer operations (state only). -/
def runBuf (c : St) : List BufOp → St
  | [] => c
  | op :: ops => runBuf (stepBuf c op).1 ops

/-- A buffer-op sequence in which the transport honors `pause`: no push is
performed while the socket is paused. -/
def validBuf (c : St) : List BufOp → Bool
  | [] => true
  | .push v :: ops => !c.paused && validBuf (stepBuf c (.push v)).1 ops
  | .shift :: ops => validBuf (stepBuf c .shift).1 ops

/-- Effects of the i-th buffer operation. -/
def bufEffs (c : St) (ops : List BufOp) (i : Nat) : List Eff :=
  (stepBuf (runBuf c (ops.take i)) (ops.getD i .shift)).2

/-- Watermark invariant: the length never exceeds `high`, and at `high` the
socket is paused. -/
def BufInv (c : St) : Prop :=
  c.received.length ≤ high ∧ (c.received.length = high → c.paused = true)

end Reader

namespace Writer

/-- The writer's closure state: `done`, `callback` (is a write/close call
outstanding), `isPreparing`, the single `pendingParamValues` set,
`shouldUnprepare`, and whether the connection `errorMessage` listener is
still attached. -/
structure St where
  done : Bool
  callback : Bool
  isPreparing : Bool
  pendingParamValues : Option (List (String × JSVal))
  shouldUnprepare : Bool
  errorListener : Bool
deriving DecidableEq

/-- External events driving one writer: caller `write(row)` and the
end-of-stream sentinel `write(undefined)` (`close`), the `prepared` event,
the request completion callback, and a connection `errorMessage`. -/
inductive Ev where
  | write (vals : List JSVal)
  | close
  | prepared
  | complete (e : Option Err)
  | errorMsg (e : Err)
deriving DecidableEq

/-- Commands issued to the connection and resolutions of the outstanding
write/close call. -/
inductive Eff where
  | execute (ps : List (String × JSVal))
  | unprepare
  | resolve (e : Option Err)
deriving DecidableEq

/-- Positionally named parameter bindings `p0, p1, ...` built from a row. -/
def mkParams (vals : List JSVal) : List (String × JSVal) :=
  vals.enum.map fun p => ("p" ++ toString p.1, p.2)

/-- The writer's `send(err)`: invoke and clear the stored callback, if any. -/
def send (c : St) (err : Option Err) : St × List Eff :=
  if c.callback then ({ c with callback := false }, [.resolve err])
  else ({ c with callback := false }, [])

/-- The `tds.Request` completion callback: swallowed while preparing, else
`send(err)`. -/
def onRequestComplete (c : St) (err : Option Err) : St × List Eff :=
  if c.isPreparing then (c, []) else send c err

/-- `request.on('prepared')`: clear `isPreparing`; unprepare now when a close
was deferred, else execute the pending parameter set, if any. -/
def onPrepared (c : St) : St × List Eff :=
  let c1 := { c with isPreparing := false }
  if c1.shouldUnprepare then
    ({ c1 with shouldUnprepare := false }, [.unprepare])
  else
    match c1.pendingParamValues with
    | some ps => (c1, [.execute ps])
    | none => (c1, [])

/-- `processError`: detach the listener and `send(err)`; a detached listener
sees nothing. -/
def onErrorMsg (c : St) (e : Err) : St × List Eff :=
  if c.errorListener then send { c with errorListener := false } (some e)
  else (c, [])

/-- `write(row)` for a data row: no-op once done; store the callback; while
preparing store the single pending parameter set, else execute now. -/
def write (c : St) (vals : List JSVal) : St × List Eff :=
  if c.done then (c, [])
  else
    let c1 := { c with callback := true }
    if c1.isPreparing then
      ({ c1 with pendingParamValues := some (mkParams vals) }, [])
    else
      (c1, [.execute (mkParams vals)])

/-- `write(undefined)` (the end-of-stream sentinel): no-op once done; store
the callback, mark done; while preparing defer the unprepare, else unprepare
now; detach the error listener in both branches. -/
def close (c : St) : St × List Eff :=
  if c.done then (c, [])
  else
    let c1 := { c with callback := true, done := true }
    if c1.isPreparing then
      ({ c1 with shouldUnprepare := true, errorListener := false }, [])
    else
      ({ c1 with errorListener := false }, [.unprepare])

/-- One step of the writer machine. -/
def step (c : St) : Ev → St × List Eff
  | .write vals => write c vals
  | .close => close c
  | .prepared => onPrepared c
  | .complete e => onRequestComplete c e
  | .errorMsg e => onErrorMsg c e

/-- Run the writer machine over a list of events, accumulating effects. -/
def runW (c : St) : List Ev → St × List Eff
  | [] => (c, [])
  | e :: es => ((runW (step c e).1 es).1, (step c e).2 ++ (runW (step c e).1 es).2)

/-- Initial writer state, right after `connection.prepare(request)`. -/
def init : St :=
  { done := false, callback := false, isPreparing := true,
    pendingParamValues := none, shouldUnprepare := false, errorListener := true }

end Writer

end FTedious

namespace FTedious

lemma jsOr_none (a : Option Err) : jsOr a none = a := by
  cases a <;> rfl

namespace Reader

lemma wrap_received (p : St × List Eff) : (wrap p).1.received = p.1.received := by
  unfold wrap; split <;> rfl

lemma wrap_cbKind (p : St × List Eff) : (wrap p).1.cbKind = p.1.cbKind := by
  unfold wrap; split <;> rfl

lemma wrap_error (p : St × List Eff) : (wrap p).1.error = p.1.error := by
  unfold wrap; split <;> rfl

lemma wrap_done (p : St × List Eff) : (wrap p).1.done = p.1.done := by
  unfold wrap; split <;> rfl

lemma wrap_stopped (p : St × List Eff) : (wrap p).1.stopped = p.1.stopped := by
  unfold wrap; split <;> rfl

lemma pullResults_append (l1 l2 : List Eff) :
    pullResults (l1 ++ l2) = pullResults l1 ++ pullResults l2 := by
  induction l1 with
  | nil => rfl
  | cons x l ih =>
      cases x with
      | resolve k e r => cases k <;> simp [pullResults, ih]
      | pause => simp [pullResults, ih]
      | resume => simp [pullResults, ih]
      | cancel => simp [pullResults, ih]
      | closeCall => simp [pullResults, ih]

lemma stopResults_append (l1 l2 : List Eff) :
    stopResults (l1 ++ l2) = stopResults l1 ++ stopResults l2 := by
  induction l1 with
  | nil => rfl
  | cons x l ih =>
      cases x with
      | resolve k e r => cases k <;> simp [stopResults, ih]
      | pause => simp [stopResults, ih]
      | resume => simp [stopResults, ih]
      | cancel => simp [stopResults, ih]
      | closeCall => simp [stopResults, ih]

lemma pullResults_wrap (p : St × List Eff) :
    pullResults (wrap p).2 = pullResults p.2 := by
  unfold wrap; split
  · simp [pullResults_append, pullResults]
  · rfl

lemma stopResults_wrap (p : St × List Eff) :
    stopResults (wrap p).2 = stopResults p.2 := by
  unfold wrap; split
  · simp [stopResults_append, stopResults]
  · rfl

lemma push_received (c : St) (v : JSVal) :
    (push c v).1.received = c.received ++ [v] := by
  simp only [push]; split <;> rfl

lemma push_cbKind (c : St) (v : JSVal) : (push c v).1.cbKind = c.cbKind := by
  simp only [push]; split <;> rfl

lemma push_error (c : St) (v : JSVal) : (push c v).1.error = c.error := by
  simp only [push]; split <;> rfl

lemma push_done (c : St) (v : JSVal) : (push c v).1.done = c.done := by
  simp only [push]; split <;> rfl

lemma push_stopped (c : St) (v : JSVal) : (push c v).1.stopped = c.stopped := by
  simp only [push]; split <;> rfl

lemma pullResults_push (c : St) (v : JSVal) : pullResults (push c v).2 = [] := by
  simp only [push]; split <;> simp [pullResults]

lemma stopResults_push (c : St) (v : JSVal) : stopResults (push c v).2 = [] := by
  simp only [push]; split <;> simp [stopResults]

lemma run_nil (c : St) : run c [] = (c, []) := rfl

lemma run_cons (c : St) (e : Ev) (es : List Ev) :
    run c (e :: es) = ((run (step c e).1 es).1, (step c e).2 ++ (run (step c e).1 es).2) := rfl

lemma run_append (xs ys : List Ev) : ∀ c : St,
    run c (xs ++ ys)
      = ((run (run c xs).1 ys).1, (run c xs).2 ++ (run (run c xs).1 ys).2) := by
  induction xs with
  | nil => intro c; simp [run]
  | cons e es ih => intro c; simp [run_cons, List.cons_append, ih, List.append_assoc]

lemma validFrom_append (xs ys : List Ev) : ∀ c : St,
    validFrom c (xs ++ ys) = (validFrom c xs && validFrom (run c xs).1 ys) := by
  induction xs with
  | nil => intro c; simp [validFrom, run]
  | cons e es ih =>
      intro c
      simp [validFrom, run_cons, List.cons_append, ih, Bool.and_assoc]

end Reader

end FTedious

namespace FTedious

namespace Reader

lemma shift_received (c : St) : (shift c).1.received = c.received.tail := by
  simp only [shift]; split <;> rfl

lemma shift_cbKind (c : St) : (shift c).1.cbKind = c.cbKind := by
  simp only [shift]; split <;> rfl

lemma shift_error (c : St) : (shift c).1.error = c.error := by
  simp only [shift]; split <;> rfl

lemma shift_done (c : St) : (shift c).1.done = c.done := by
  simp only [shift]; split <;> rfl

lemma shift_stopped (c : St) : (shift c).1.stopped = c.stopped := by
  simp only [shift]; split <;> rfl

lemma shift_val (c : St) : (shift c).2.2 = c.received.head? := by
  simp only [shift]; split <;> rfl

lemma pullResults_shiftEffs (c : St) : pullResults (shift c).2.1 = [] := by
  simp only [shift]; split <;> simp [pullResults]

lemma stopResults_shiftEffs (c : St) : stopResults (shift c).2.1 = [] := by
  simp only [shift]; split <;> simp [stopResults]

lemma step_row_stopped (c : St) (v : JSVal) (hs : c.stopped = true) :
    step c (.row v) = (c, []) := by
  simp [step, stepCore, onRow, hs, wrap]

lemma step_row_cb (c : St) (v : JSVal) (hs : c.stopped = false)
    (hcb : c.cbKind = some CbKind.pull) (ht : truthy v = true) :
    (step c (.row v)).1.received = c.received ∧
    (step c (.row v)).1.cbKind = none ∧
    (step c (.row v)).1.error = c.error ∧
    (step c (.row v)).1.done = c.done ∧
    (step c (.row v)).1.stopped = false ∧
    pullResults (step c (.row v)).2 = [RRes.row v] ∧
    stopResults (step c (.row v)).2 = [] := by
  simp [step, pullResults_wrap, stopResults_wrap, wrap_received, wrap_cbKind,
    wrap_error, wrap_done, wrap_stopped, stepCore, onRow, hs, send, hcb,
    optTruthy, ht, pullResults, stopResults, interp]

lemma step_row_nocb (c : St) (v : JSVal) (hs : c.stopped = false)
    (hcb : c.cbKind = none) (ht : truthy v = true) :
    (step c (.row v)).1.received = c.received ++ [v] ∧
    (step c (.row v)).1.cbKind = none ∧
    (step c (.row v)).1.error = c.error ∧
    (step c (.row v)).1.done = c.done ∧
    (step c (.row v)).1.stopped = false ∧
    pullResults (step c (.row v)).2 = [] ∧
    stopResults (step c (.row v)).2 = [] := by
  simp [step, pullResults_wrap, stopResults_wrap, wrap_received, wrap_cbKind,
    wrap_error, wrap_done, wrap_stopped, stepCore, onRow, hs, send, hcb,
    optTruthy, ht, jsOr_none, push_received, push_cbKind, push_error,
    push_done, push_stopped, pullResults_push, stopResults_push]

lemma step_row_falsy_cb (c : St) (v : JSVal) (hs : c.stopped = false)
    (hcb : c.cbKind = some CbKind.pull) (hf : truthy v = false) :
    (step c (.row v)).1.received = c.received ∧
    (step c (.row v)).1.cbKind = none ∧
    (step c (.row v)).1.error = c.error ∧
    (step c (.row v)).1.done = true ∧
    (step c (.row v)).1.stopped = false ∧
    pullResults (step c (.row v)).2 = [RRes.endOfStream] ∧
    stopResults (step c (.row v)).2 = [] := by
  simp [step, pullResults_wrap, stopResults_wrap, wrap_received, wrap_cbKind,
    wrap_error, wrap_done, wrap_stopped, stepCore, onRow, hs, send, hcb,
    optTruthy, hf, pullResults, stopResults, interp]

lemma step_row_falsy_nocb (c : St) (v : JSVal) (hs : c.stopped = false)
    (hcb : c.cbKind = none) (hf : truthy v = false) :
    (step c (.row v)).1.received = c.received ∧
    (step c (.row v)).1.cbKind = none ∧
    (step c (.row v)).1.error = c.error ∧
    (step c (.row v)).1.done = true ∧
    (step c (.row v)).1.stopped = false ∧
    pullResults (step c (.row v)).2 = [] ∧
    stopResults (step c (.row v)).2 = [] := by
  simp [step, pullResults_wrap, stopResults_wrap, wrap_received, wrap_cbKind,
    wrap_error, wrap_done, wrap_stopped, stepCore, onRow, hs, send, hcb,
    optTruthy, hf, jsOr_none, pullResults, stopResults]

lemma step_pull_err (c : St) (e : Err) (he : c.error = some e) :
    (step c .pull).1.received = c.received ∧
    (step c .pull).1.cbKind = c.cbKind ∧
    (step c .pull).1.error = some e ∧
    (step c .pull).1.done = c.done ∧
    (step c .pull).1.stopped = c.stopped ∧
    pullResults (step c .pull).2 = [RRes.err e] ∧
    stopResults (step c .pull).2 = [] := by
  simp [step, pullResults_wrap, stopResults_wrap, wrap_received, wrap_cbKind,
    wrap_error, wrap_done, wrap_stopped, stepCore, read, he, pullResults,
    stopResults, interp]

lemma step_pull_buf (c : St) (x : JSVal) (rest : List JSVal)
    (he : c.error = none) (hr : c.received = x :: rest) :
    (step c .pull).1.received = rest ∧
    (step c .pull).1.cbKind = c.cbKind ∧
    (step c .pull).1.error = none ∧
    (step c .pull).1.done = c.done ∧
    (step c .pull).1.stopped = c.stopped ∧
    pullResults (step c .pull).2 = [RRes.row x] ∧
    stopResults (step c .pull).2 = [] := by
  simp [step, pullResults_wrap, stopResults_wrap, wrap_received, wrap_cbKind,
    wrap_error, wrap_done, wrap_stopped, stepCore, read, he, hr,
    shift_received, shift_cbKind, shift_error, shift_done, shift_stopped,
    shift_val, pullResults_append, stopResults_append, pullResults_shiftEffs,
    stopResults_shiftEffs, pullResults, stopResults, interp]

lemma step_pull_store (c : St) (he : c.error = none) (hr : c.received = [])
    (hd : c.done = false) :
    (step c .pull).1.received = [] ∧
    (step c .pull).1.cbKind = some CbKind.pull ∧
    (step c .pull).1.error = none ∧
    (step c .pull).1.done = false ∧
    (step c .pull).1.stopped = c.stopped ∧
    pullResults (step c .pull).2 = [] ∧
    stopResults (step c .pull).2 = [] := by
  simp [step, pullResults_wrap, stopResults_wrap, wrap_received, wrap_cbKind,
    wrap_error, wrap_done, wrap_stopped, stepCore, read, he, hr, hd,
    pullResults, stopResults]

lemma step_pull_done (c : St) (he : c.error = none) (hr : c.received = [])
    (hd : c.done = true) :
    (step c .pull).1.received = [] ∧
    (step c .pull).1.cbKind = c.cbKind ∧
    (step c .pull).1.error = none ∧
    (step c .pull).1.done = true ∧
    (step c .pull).1.stopped = c.stopped ∧
    pullResults (step c .pull).2 = [RRes.endOfStream] ∧
    stopResults (step c .pull).2 = [] := by
  simp [step, pullResults_wrap, stopResults_wrap, wrap_received, wrap_cbKind,
    wrap_error, wrap_done, wrap_stopped, stepCore, read, he, hr, hd,
    pullResults, stopResults, interp]

lemma step_stop_notdone (c : St) (hd : c.done = false) :
    (step c .stop).1.received = c.received ∧
    (step c .stop).1.cbKind = some CbKind.stop ∧
    (step c .stop).1.error = c.error ∧
    (step c .stop).1.done = false ∧
    (step c .stop).1.stopped = true ∧
    pullResults (step c .stop).2 = [] ∧
    stopResults (step c .stop).2 = [] := by
  simp [step, pullResults_wrap, stopResults_wrap, wrap_received, wrap_cbKind,
    wrap_error, wrap_done, wrap_stopped, stepCore, stop, hd, pullResults,
    stopResults]

lemma step_complete_cb (c : St) (e : Option Err) (hs : c.stopped = false)
    (hcb : c.cbKind = some CbKind.pull) :
    (step c (.complete e)).1.received = c.received ∧
    (step c (.complete e)).1.cbKind = none ∧
    (step c (.complete e)).1.error = c.error ∧
    (step c (.complete e)).1.done = true ∧
    (step c (.complete e)).1.stopped = false ∧
    pullResults (step c (.complete e)).2 = [RRes.endOfStream] ∧
    stopResults (step c (.complete e)).2 = [] := by
  simp [step, pullResults_wrap, stopResults_wrap, wrap_received, wrap_cbKind,
    wrap_error, wrap_done, wrap_stopped, stepCore, onComplete, hs, send, hcb,
    optTruthy, pullResults, stopResults, interp]

lemma step_complete_nocb (c : St) (e : Option Err) (hs : c.stopped = false)
    (hcb : c.cbKind = none) :
    (step c (.complete e)).1.received = c.received ∧
    (step c (.complete e)).1.cbKind = none ∧
    (step c (.complete e)).1.error = jsOr c.error e ∧
    (step c (.complete e)).1.done = true ∧
    (step c (.complete e)).1.stopped = false ∧
    pullResults (step c (.complete e)).2 = [] ∧
    stopResults (step c (.complete e)).2 = [] := by
  simp [step, pullResults_wrap, stopResults_wrap, wrap_received, wrap_cbKind,
    wrap_error, wrap_done, wrap_stopped, stepCore, onComplete, hs, send, hcb,
    optTruthy, pullResults, stopResults]

lemma step_complete_stopcb (c : St) (e : Option Err) (hs : c.stopped = true)
    (hcb : c.cbKind = some CbKind.stop) :
    (step c (.complete e)).1.received = c.received ∧
    (step c (.complete e)).1.cbKind = none ∧
    (step c (.complete e)).1.error = c.error ∧
    (step c (.complete e)).1.done = true ∧
    (step c (.complete e)).1.stopped = true ∧
    pullResults (step c (.complete e)).2 = [] ∧
    stopResults (step c (.complete e)).2 = [RRes.endOfStream] := by
  simp [step, pullResults_wrap, stopResults_wrap, wrap_received, wrap_cbKind,
    wrap_error, wrap_done, wrap_stopped, stepCore, onComplete, hs, send, hcb,
    optTruthy, pullResults, stopResults, interp]

end Reader

end FTedious

namespace FTedious

namespace Reader

lemma run1 (es : List Ev) : ∀ c : St,
    (∀ e ∈ es, phase1Ev e = true) →
    validFrom c es = true →
    Inv1 c →
    ∃ d, d ≤ (c.received ++ rowValues es).length ∧
      pullResults (run c es).2 = ((c.received ++ rowValues es).take d).map RRes.row ∧
      stopResults (run c es).2 = [] ∧
      (run c es).1.received = (c.received ++ rowValues es).drop d ∧
      Inv1 (run c es).1 ∧
      ((run c es).1.cbKind = some CbKind.pull → d = (c.received ++ rowValues es).length) ∧
      d + pendN (run c es).1 = pendN c + pullCount es := by
  induction es with
  | nil =>
      intro c _ _ hinv
      refine ⟨0, by simp, by simp [run, pullResults, rowValues],
        by simp [run, stopResults], by simp [run, rowValues],
        by simpa [run] using hinv, ?_, by simp [run, pullCount]⟩
      intro h
      obtain ⟨-, -, -, hk⟩ := hinv
      simp only [run] at h
      rcases hk with hk | ⟨-, hk2⟩
      · rw [hk] at h; cases h
      · simp [rowValues, hk2]
  | cons e es ih =>
      intro c hph hval hinv
      have hph1 : phase1Ev e = true := hph e (by simp)
      have hphes : ∀ x ∈ es, phase1Ev x = true := fun x hx => hph x (by simp [hx])
      rw [validFrom, Bool.and_eq_true] at hval
      obtain ⟨hvg, hval2⟩ := hval
      obtain ⟨herr, hstop, hdone, hcbd⟩ := hinv
      have hfst : ∀ ev, (run c (ev :: es)).1 = (run (step c ev).1 es).1 := by
        intro ev; rw [run_cons]
      have hsnd : ∀ ev, (run c (ev :: es)).2
          = (step c ev).2 ++ (run (step c ev).1 es).2 := by
        intro ev; rw [run_cons]
      cases e with
      | row v =>
          have ht : truthy v = true := by simpa [phase1Ev] using hph1
          rcases hcbd with hcb | ⟨hcb, hrec⟩
          · -- no outstanding pull: the row is buffered
            obtain ⟨h1, h2, h3, h4, h5, h6, h7⟩ := step_row_nocb c v hstop hcb ht
            have hinv2 : Inv1 (step c (Ev.row v)).1 :=
              ⟨by rw [h3, herr], h5, by rw [h4, hdone], Or.inl h2⟩
            obtain ⟨d, hdle, hpr, hsr, hrecd, hinv3, hcbl, hcount⟩ :=
              ih (step c (Ev.row v)).1 hphes hval2 hinv2
            have hA : (step c (Ev.row v)).1.received ++ rowValues es
                = c.received ++ rowValues (Ev.row v :: es) := by
              rw [h1]; simp [rowValues]
            refine ⟨d, ?_, ?_, ?_, ?_, hinv3, ?_, ?_⟩
            · rw [← hA]; exact hdle
            · rw [hsnd, pullResults_append, h6, List.nil_append, hpr, hA]
            · rw [hsnd, stopResults_append, h7, List.nil_append, hsr]
            · rw [hfst, hrecd, hA]
            · rw [hfst]; intro hx; rw [← hA]; exact hcbl hx
            · rw [hfst]
              have hpc : pendN c = 0 := by simp [pendN, hcb]
              have hpc2 : pendN (step c (Ev.row v)).1 = 0 := by simp [pendN, h2]
              have hct : pullCount (Ev.row v :: es) = pullCount es := by
                simp [pullCount]
              omega
          · -- an outstanding pull is resolved directly with the row
            obtain ⟨h1, h2, h3, h4, h5, h6, h7⟩ := step_row_cb c v hstop hcb ht
            have hinv2 : Inv1 (step c (Ev.row v)).1 :=
              ⟨by rw [h3, herr], h5, by rw [h4, hdone], Or.inl h2⟩
            obtain ⟨d, hdle, hpr, hsr, hrecd, hinv3, hcbl, hcount⟩ :=
              ih (step c (Ev.row v)).1 hphes hval2 hinv2
            have hA : c.received ++ rowValues (Ev.row v :: es)
                = v :: ((step c (Ev.row v)).1.received ++ rowValues es) := by
              rw [h1, hrec]; simp [rowValues]
            refine ⟨d + 1, ?_, ?_, ?_, ?_, hinv3, ?_, ?_⟩
            · rw [hA]; simpa using hdle
            · rw [hsnd, pullResults_append, h6, hA, List.take_succ_cons,
                List.map_cons, hpr]; rfl
            · rw [hsnd, stopResults_append, h7, List.nil_append, hsr]
            · rw [hfst, hrecd, hA, List.drop_succ_cons]
            · rw [hfst]; intro hx
              rw [hA, List.length_cons, hcbl hx]
            · rw [hfst]
              have hpc : pendN c = 1 := by simp [pendN, hcb]
              have hpc2 : pendN (step c (Ev.row v)).1 = 0 := by simp [pendN, h2]
              have hct : pullCount (Ev.row v :: es) = pullCount es := by
                simp [pullCount]
              omega
      | complete e' =>
          simp [phase1Ev] at hph1
      | pull =>
          have hcb : c.cbKind = none := by
            simp [callFree] at hvg; exact hvg
          rcases hr : c.received with - | ⟨x, rest⟩
          · -- empty buffer, not done: the pull callback is stored
            obtain ⟨h1, h2, h3, h4, h5, h6, h7⟩ := step_pull_store c herr hr hdone
            have hinv2 : Inv1 (step c Ev.pull).1 :=
              ⟨h3, by rw [h5, hstop], h4, Or.inr ⟨h2, h1⟩⟩
            obtain ⟨d, hdle, hpr, hsr, hrecd, hinv3, hcbl, hcount⟩ :=
              ih (step c Ev.pull).1 hphes hval2 hinv2
            have hA : (step c Ev.pull).1.received ++ rowValues es
                = [] ++ rowValues (Ev.pull :: es) := by
              rw [h1]; simp [rowValues]
            refine ⟨d, ?_, ?_, ?_, ?_, hinv3, ?_, ?_⟩
            · rw [← hA]; exact hdle
            · rw [hsnd, pullResults_append, h6, List.nil_append, hpr, hA]
            · rw [hsnd, stopResults_append, h7, List.nil_append, hsr]
            · rw [hfst, hrecd, hA]
            · rw [hfst]; intro hx; rw [← hA]; exact hcbl hx
            · rw [hfst]
              have hpc : pendN c = 0 := by simp [pendN, hcb]
              have hpc2 : pendN (step c Ev.pull).1 = 1 := by simp [pendN, h2]
              have hct : pullCount (Ev.pull :: es) = pullCount es + 1 := by
                simp [pullCount]
              omega
          · -- non-empty buffer: the pull dequeues the head row
            obtain ⟨h1, h2, h3, h4, h5, h6, h7⟩ := step_pull_buf c x rest herr hr
            have hinv2 : Inv1 (step c Ev.pull).1 :=
              ⟨h3, by rw [h5, hstop], by rw [h4, hdone], Or.inl (by rw [h2, hcb])⟩
            obtain ⟨d, hdle, hpr, hsr, hrecd, hinv3, hcbl, hcount⟩ :=
              ih (step c Ev.pull).1 hphes hval2 hinv2
            have hA : x :: rest ++ rowValues (Ev.pull :: es)
                = x :: ((step c Ev.pull).1.received ++ rowValues es) := by
              rw [h1]; simp [rowValues]
            refine ⟨d + 1, ?_, ?_, ?_, ?_, hinv3, ?_, ?_⟩
            · rw [hA]; simpa using hdle
            · rw [hsnd, pullResults_append, h6, hA, List.take_succ_cons,
                List.map_cons, hpr]; rfl
            · rw [hsnd, stopResults_append, h7, List.nil_append, hsr]
            · rw [hfst, hrecd, hA, List.drop_succ_cons]
            · rw [hfst]; intro hx
              rw [hA, List.length_cons, hcbl hx]
            · rw [hfst]
              have hpc : pendN c = 0 := by simp [pendN, hcb]
              have hpc2 : pendN (step c Ev.pull).1 = 0 := by simp [pendN, h2, hcb]
              have hct : pullCount (Ev.pull :: es) = pullCount es + 1 := by
                simp [pullCount]
              omega
      | stop =>
          simp [phase1Ev] at hph1

end Reader

end FTedious

namespace FTedious

namespace Reader

lemma run2 (k : Nat) : ∀ c : St, c.error = none → c.done = true → c.cbKind = none →
    pullResults (run c (List.replicate k Ev.pull)).2
      = (c.received.take k).map RRes.row
        ++ List.replicate (k - c.received.length) RRes.endOfStream ∧
    stopResults (run c (List.replicate k Ev.pull)).2 = [] ∧
    (run c (List.replicate k Ev.pull)).1.received = c.received.drop k ∧
    (run c (List.replicate k Ev.pull)).1.error = none ∧
    (run c (List.replicate k Ev.pull)).1.done = true ∧
    (run c (List.replicate k Ev.pull)).1.cbKind = none := by
  induction k with
  | zero =>
      intro c he hd hcb
      simp [run, pullResults, stopResults, he, hd, hcb]
  | succ k ih =>
      intro c he hd hcb
      rw [List.replicate_succ]
      have hfst : (run c (Ev.pull :: List.replicate k Ev.pull)).1
          = (run (step c Ev.pull).1 (List.replicate k Ev.pull)).1 := by rw [run_cons]
      have hsnd : (run c (Ev.pull :: List.replicate k Ev.pull)).2
          = (step c Ev.pull).2 ++ (run (step c Ev.pull).1 (List.replicate k Ev.pull)).2 := by
        rw [run_cons]
      rcases hr : c.received with - | ⟨x, rest⟩
      · obtain ⟨h1, h2, h3, h4, h5, h6, h7⟩ := step_pull_done c he hr hd
        obtain ⟨ihp, ihs, ihr, ihe, ihd, ihc⟩ :=
          ih (step c Ev.pull).1 h3 h4 (by rw [h2, hcb])
        refine ⟨?_, ?_, ?_, ?_, ?_, ?_⟩
        · rw [hsnd, pullResults_append, h6, ihp, h1]
          simp [List.replicate_succ]
        · rw [hsnd, stopResults_append, h7, List.nil_append, ihs]
        · rw [hfst, ihr, h1]; simp
        · rw [hfst, ihe]
        · rw [hfst, ihd]
        · rw [hfst, ihc]
      · obtain ⟨h1, h2, h3, h4, h5, h6, h7⟩ := step_pull_buf c x rest he hr
        obtain ⟨ihp, ihs, ihr, ihe, ihd, ihc⟩ :=
          ih (step c Ev.pull).1 h3 (by rw [h4, hd]) (by rw [h2, hcb])
        refine ⟨?_, ?_, ?_, ?_, ?_, ?_⟩
        · rw [hsnd, pullResults_append, h6, ihp, h1, List.take_succ_cons,
            List.map_cons, List.length_cons, Nat.succ_sub_succ]
          rfl
        · rw [hsnd, stopResults_append, h7, List.nil_append, ihs]
        · rw [hfst, ihr, h1, List.drop_succ_cons]
        · rw [hfst, ihe]
        · rw [hfst, ihd]
        · rw [hfst, ihc]

lemma validFrom_rows (vs : List JSVal) : ∀ c : St, validFrom c (vs.map Ev.row) = true := by
  induction vs with
  | nil => intro c; rfl
  | cons v vs ih =>
      intro c
      rw [List.map_cons, validFrom]
      simp [callFree, ih]

lemma rowValues_map_row (vs : List JSVal) : rowValues (vs.map Ev.row) = vs := by
  induction vs with
  | nil => rfl
  | cons v vs ih => simp [rowValues, ih]

lemma pullCount_map_row (vs : List JSVal) : pullCount (vs.map Ev.row) = 0 := by
  induction vs with
  | nil => rfl
  | cons v vs ih => simp [pullCount, ih]

lemma phase1_map_row (vs : List JSVal) (h : ∀ v ∈ vs, truthy v = true) :
    ∀ e ∈ vs.map Ev.row, phase1Ev e = true := by
  intro e he
  rw [List.mem_map] at he
  obtain ⟨v, hv, rfl⟩ := he
  simpa [phase1Ev] using h v hv

lemma runRows (vs : List JSVal) (c : St) (hvs : ∀ v ∈ vs, truthy v = true)
    (hinv : Inv1 c) (hcb : c.cbKind = none) :
    pullResults (run c (vs.map Ev.row)).2 = [] ∧
    stopResults (run c (vs.map Ev.row)).2 = [] ∧
    (run c (vs.map Ev.row)).1.received = c.received ++ vs ∧
    (run c (vs.map Ev.row)).1.error = none ∧
    (run c (vs.map Ev.row)).1.stopped = false ∧
    (run c (vs.map Ev.row)).1.done = false ∧
    (run c (vs.map Ev.row)).1.cbKind = none := by
  obtain ⟨d, hdle, hpr, hsr, hrecd, hinv3, hcbl, hcount⟩ :=
    run1 (vs.map Ev.row) c (phase1_map_row vs hvs) (validFrom_rows vs c) hinv
  have hpc : pendN c = 0 := by simp [pendN, hcb]
  have hc0 : pullCount (vs.map Ev.row) = 0 := pullCount_map_row vs
  have hd0 : d = 0 := by omega
  obtain ⟨he3, hs3, hdn3, hk3⟩ := hinv3
  have hk : (run c (vs.map Ev.row)).1.cbKind = none := by
    rcases hk3 with hk | ⟨hk, -⟩
    · exact hk
    · exfalso
      have : pendN (run c (vs.map Ev.row)).1 = 1 := by simp [pendN, hk]
      omega
  subst hd0
  refine ⟨?_, hsr, ?_, he3, hs3, hdn3, hk⟩
  · simpa using hpr
  · rw [hrecd, rowValues_map_row]; simp

lemma runRowsStopped (ws : List JSVal) : ∀ c : St, c.stopped = true →
    run c (ws.map Ev.row) = (c, []) := by
  induction ws with
  | nil => intro c _; rfl
  | cons w ws ih =>
      intro c h
      rw [List.map_cons, run_cons, step_row_stopped c w h]
      simp [ih c h]

end Reader

end FTedious

namespace FTedious

namespace Reader

lemma push_closeHook (c : St) (v : JSVal) : (push c v).1.closeHook = c.closeHook := by
  simp only [push]; split <;> rfl

lemma shift_closeHook (c : St) : (shift c).1.closeHook = c.closeHook := by
  simp only [shift]; split <;> rfl

lemma send_closeHook (c : St) (err : Option Err) (result : Option JSVal) :
    (send c err result).1.closeHook = c.closeHook := by
  cases hcb : c.cbKind <;> simp only [send, hcb] <;> split <;>
    simp [push_closeHook]

lemma stepCore_closeHook (c : St) (e : Ev) :
    (stepCore c e).1.closeHook = c.closeHook := by
  cases e with
  | row v =>
      simp only [stepCore, onRow]
      split
      · rfl
      · exact send_closeHook _ _ _
  | complete e' =>
      exact send_closeHook _ _ _
  | pull =>
      cases herr : c.error with
      | some e' => simp [stepCore, read, herr]
      | none =>
          simp only [stepCore, read, herr]
          split
          · simp [shift_closeHook]
          · split <;> rfl
  | stop =>
      simp only [stepCore, stop]
      split <;> rfl

lemma push_no_closeCall (c : St) (v : JSVal) : Eff.closeCall ∉ (push c v).2 := by
  simp only [push]; split <;> simp

lemma shift_no_closeCall (c : St) : Eff.closeCall ∉ (shift c).2.1 := by
  simp only [shift]; split <;> simp

lemma send_no_closeCall (c : St) (err : Option Err) (result : Option JSVal) :
    Eff.closeCall ∉ (send c err result).2 := by
  cases hcb : c.cbKind <;> simp only [send, hcb] <;> split <;>
    first
    | exact push_no_closeCall _ _
    | simp

lemma stepCore_no_closeCall (c : St) (e : Ev) :
    Eff.closeCall ∉ (stepCore c e).2 := by
  cases e with
  | row v =>
      simp only [stepCore, onRow]
      split
      · simp
      · exact send_no_closeCall _ _ _
  | complete e' =>
      exact send_no_closeCall _ _ _
  | pull =>
      cases herr : c.error with
      | some e' => simp [stepCore, read, herr]
      | none =>
          simp only [stepCore, read, herr]
          split
          · intro hmem
            rcases List.mem_append.mp hmem with hm | hm
            · exact shift_no_closeCall c hm
            · simp at hm
          · split <;> simp
  | stop =>
      simp only [stepCore, stop]
      split <;> simp

lemma run_hook_false (t : List Ev) : ∀ c : St, c.closeHook = false →
    (run c t).1.closeHook = false ∧ Eff.closeCall ∉ (run c t).2 := by
  induction t with
  | nil => intro c h; exact ⟨h, by simp [run]⟩
  | cons e t ih =>
      intro c h
      have hch : (stepCore c e).1.closeHook = false := by
        rw [stepCore_closeHook, h]
      have hw : step c e = stepCore c e := by
        simp [step, wrap, hch]
      obtain ⟨ih1, ih2⟩ := ih (step c e).1 (by rw [hw, hch])
      refine ⟨by rw [run_cons]; exact ih1, ?_⟩
      rw [run_cons]
      simp only [List.mem_append, not_or]
      exact ⟨by rw [hw]; exact stepCore_no_closeCall c e, ih2⟩

lemma run_hook_true (t : List Ev) : ∀ c : St, c.closeHook = true →
    ((run c t).2.any isResolve = false ∧ Eff.closeCall ∉ (run c t).2
        ∧ (run c t).1.closeHook = true)
      ∨ ((run c t).2.any isResolve = true
        ∧ (run c t).2.count Eff.closeCall = 1) := by
  induction t with
  | nil => intro c h; exact Or.inl ⟨by simp [run], by simp [run], by simp [run, h]⟩
  | cons e t ih =>
      intro c h
      have hch : (stepCore c e).1.closeHook = true := by
        rw [stepCore_closeHook, h]
      have hfst : (run c (e :: t)).1 = (run (step c e).1 t).1 := by rw [run_cons]
      have hsnd : (run c (e :: t)).2
          = (step c e).2 ++ (run (step c e).1 t).2 := by rw [run_cons]
      by_cases hres : (stepCore c e).2.any isResolve = true
      · -- this step resolves a call: the hook fires now and is consumed
        have hw1 : (step c e).1 = { (stepCore c e).1 with closeHook := false } := by
          simp [step, wrap, hch, hres]
        have hw2 : (step c e).2 = (stepCore c e).2 ++ [Eff.closeCall] := by
          simp [step, wrap, hch, hres]
        obtain ⟨hf1, hf2⟩ := run_hook_false t (step c e).1 (by rw [hw1])
        refine Or.inr ⟨?_, ?_⟩
        · rw [hsnd, List.any_append, hw2, List.any_append, hres]
          simp
        · rw [hsnd, List.count_append, hw2, List.count_append,
            List.count_eq_zero.mpr (stepCore_no_closeCall c e),
            List.count_eq_zero.mpr hf2]
          rfl
      · -- no resolution: the hook survives this step untouched
        have hw1 : (step c e).1 = (stepCore c e).1 := by
          simp [step, wrap, hres]
        have hw2 : (step c e).2 = (stepCore c e).2 := by
          simp [step, wrap, hres]
        rcases ih (step c e).1 (by rw [hw1, hch]) with ⟨ih1, ih2, ih3⟩ | ⟨ih1, ih2⟩
        · refine Or.inl ⟨?_, ?_, by rw [hfst]; exact ih3⟩
          · rw [hsnd, List.any_append, hw2, ih1]
            simp only [Bool.or_eq_false_iff]
            exact ⟨by simpa using hres, trivial⟩
          · rw [hsnd]
            simp only [List.mem_append, not_or]
            exact ⟨by rw [hw2]; exact stepCore_no_closeCall c e, ih2⟩
        · refine Or.inr ⟨?_, ?_⟩
          · rw [hsnd, List.any_append, ih1]
            simp
          · rw [hsnd, List.count_append, hw2,
              List.count_eq_zero.mpr (stepCore_no_closeCall c e), ih2]

end Reader

end FTedious

namespace FTedious

namespace Reader

lemma push_effs (c : St) (v : JSVal) :
    (push c v).2 = if (c.received ++ [v]).length = high then [Eff.pause] else [] := by
  simp only [push]
  split <;> rename_i h <;> simp [h]

lemma shift_effs (c : St) :
    (shift c).2.1 = if c.received.length = low + 1 then [Eff.resume] else [] := by
  simp only [shift]
  split <;> rename_i h <;> simp [h]

lemma stepBuf_inv (c : St) (op : BufOp) (hinv : BufInv c)
    (hp : ∀ v, op = BufOp.push v → c.paused = false) :
    BufInv (stepBuf c op).1 := by
  cases op with
  | push v =>
      have hp2 : c.paused = false := hp v rfl
      simp only [stepBuf, push]
      split
      · rename_i hlen
        exact ⟨le_of_eq hlen, fun _ => rfl⟩
      · rename_i hlen
        obtain ⟨hl, himp⟩ := hinv
        have hne : c.received.length ≠ 2 := by
          intro h2
          rw [himp h2] at hp2
          cases hp2
        constructor
        · simp only [List.length_append, List.length_singleton, high] at hlen ⊢
          simp only [high] at hne hl
          omega
        · intro h2
          exact absurd h2 hlen
  | shift =>
      obtain ⟨hl, -⟩ := hinv
      have ht : (stepBuf c BufOp.shift).1.received.length = c.received.length - 1 := by
        show (shift c).1.received.length = _
        rw [shift_received, List.length_tail]
      constructor
      · rw [ht]
        simp only [high] at hl ⊢
        omega
      · intro h2
        rw [ht] at h2
        exfalso
        simp only [high] at hl h2
        omega

lemma c3_aux (ops : List BufOp) : ∀ c : St, BufInv c → validBuf c ops = true →
    (∀ i, BufInv (runBuf c (ops.take i))) ∧
    (∀ i, i < ops.length →
      ((Eff.pause ∈ bufEffs c ops i) ↔
        ((runBuf c (ops.take i)).received.length + 1 = high ∧
         (runBuf c (ops.take (i + 1))).received.length = high)) ∧
      ((Eff.resume ∈ bufEffs c ops i) ↔
        (ops.getD i BufOp.shift = BufOp.shift ∧
         (runBuf c (ops.take i)).received.length = low + 1 ∧
         (runBuf c (ops.take (i + 1))).received.length = low))) := by
  induction ops with
  | nil =>
      intro c hinv _
      constructor
      · intro i
        simpa [runBuf] using hinv
      · intro i hi
        simp at hi
  | cons op ops ih =>
      intro c hinv hval
      have hvstep : validBuf (stepBuf c op).1 ops = true
          ∧ (∀ v, op = BufOp.push v → c.paused = false) := by
        cases op with
        | push v =>
            rw [validBuf, Bool.and_eq_true] at hval
            refine ⟨hval.2, fun w hw => ?_⟩
            cases hw
            simpa using hval.1
        | shift =>
            rw [validBuf] at hval
            exact ⟨hval, fun v hv => by simp at hv⟩
      have hinv2 : BufInv (stepBuf c op).1 := stepBuf_inv c op hinv hvstep.2
      obtain ⟨ihA, ihB⟩ := ih (stepBuf c op).1 hinv2 hvstep.1
      constructor
      · intro i
        cases i with
        | zero => simpa [runBuf] using hinv
        | succ j =>
            rw [List.take_succ_cons]
            simpa [runBuf] using ihA j
      · intro i hi
        cases i with
        | zero =>
            have he0 : bufEffs c (op :: ops) 0 = (stepBuf c op).2 := rfl
            have hs0 : runBuf c ((op :: ops).take 0) = c := rfl
            have hs1 : runBuf c ((op :: ops).take 1) = (stepBuf c op).1 := rfl
            rw [he0, hs0, hs1]
            cases op with
            | push v =>
                have hre : (stepBuf c (BufOp.push v)).1.received = c.received ++ [v] :=
                  push_received c v
                have hef : (stepBuf c (BufOp.push v)).2
                    = if (c.received ++ [v]).length = high then [Eff.pause] else [] :=
                  push_effs c v
                constructor
                · by_cases hl : c.received.length + 1 = high
                  · simp [hef, hre, List.length_append, hl]
                  · simp [hef, hre, List.length_append, hl]
                · by_cases hl : c.received.length + 1 = high
                  · simp [hef, hre, List.length_append, hl, List.getD]
                  · simp [hef, hre, List.length_append, hl, List.getD]
            | shift =>
                have hre : (stepBuf c BufOp.shift).1.received = c.received.tail :=
                  shift_received c
                have hef : (stepBuf c BufOp.shift).2
                    = if c.received.length = low + 1 then [Eff.resume] else [] :=
                  shift_effs c
                constructor
                · constructor
                  · intro h
                    rw [hef] at h
                    split at h <;> simp at h
                  · rintro ⟨h1, h2⟩
                    exfalso
                    rw [hre, List.length_tail] at h2
                    simp only [high] at h1 h2
                    omega
                · constructor
                  · intro h
                    rw [hef] at h
                    split at h
                    · rename_i hc
                      refine ⟨rfl, hc, ?_⟩
                      rw [hre, List.length_tail, hc]
                      omega
                    · simp at h
                  · rintro ⟨-, h2, -⟩
                    rw [hef, if_pos h2]
                    simp
        | succ j =>
            have hj : j < ops.length := by simpa using hi
            have htr := ihB j hj
            have he : bufEffs c (op :: ops) (j + 1) = bufEffs (stepBuf c op).1 ops j := by
              simp [bufEffs, runBuf, List.take_succ_cons]
            have hs : ∀ m, runBuf c ((op :: ops).take (m + 1))
                = runBuf (stepBuf c op).1 (ops.take m) := by
              intro m
              rw [List.take_succ_cons]
              rfl
            rw [he, hs j, hs (j + 1)]
            simpa using htr

end Reader

end FTedious

namespace FTedious

namespace Writer

lemma runW_cons (c : St) (e : Ev) (es : List Ev) :
    runW c (e :: es)
      = ((runW (step c e).1 es).1, (step c e).2 ++ (runW (step c e).1 es).2) := rfl

lemma runW_append (xs ys : List Ev) : ∀ c : St,
    runW c (xs ++ ys)
      = ((runW (runW c xs).1 ys).1, (runW c xs).2 ++ (runW (runW c xs).1 ys).2) := by
  induction xs with
  | nil => intro c; simp [runW]
  | cons e es ih => intro c; simp [runW_cons, List.cons_append, ih, List.append_assoc]

lemma send_isPreparing (c : St) (err : Option Err) :
    (send c err).1.isPreparing = c.isPreparing := by
  simp only [send]; split <;> rfl

lemma step_isPreparing_of_ne (c : St) (e : Ev) (h : e ≠ Ev.prepared) :
    (step c e).1.isPreparing = c.isPreparing := by
  cases e with
  | write vals =>
      simp only [step, write]
      split
      · rfl
      · split <;> rfl
  | close =>
      simp only [step, close]
      split
      · rfl
      · split <;> rfl
  | prepared => exact absurd rfl h
  | complete e' =>
      simp only [step, onRequestComplete]
      split
      · rfl
      · exact send_isPreparing _ _
  | errorMsg e' =>
      simp only [step, onErrorMsg]
      split
      · exact send_isPreparing _ _
      · rfl

lemma step_prepared_isPreparing (c : St) :
    (step c Ev.prepared).1.isPreparing = false := by
  simp only [step, onPrepared]
  split
  · rfl
  · split <;> rfl

lemma step_isPreparing_false (c : St) (e : Ev) (h : c.isPreparing = false) :
    (step c e).1.isPreparing = false := by
  by_cases he : e = Ev.prepared
  · subst he; exact step_prepared_isPreparing c
  · rw [step_isPreparing_of_ne c e he, h]

lemma runW_isPreparing_false (es : List Ev) : ∀ c : St, c.isPreparing = false →
    (runW c es).1.isPreparing = false := by
  induction es with
  | nil => intro c h; simpa [runW] using h
  | cons e es ih =>
      intro c h
      rw [runW_cons]
      exact ih (step c e).1 (step_isPreparing_false c e h)

lemma runW_notPrepared (es : List Ev) : ∀ c : St, c.isPreparing = true →
    Ev.prepared ∉ es → (runW c es).1.isPreparing = true := by
  induction es with
  | nil => intro c h _; simpa [runW] using h
  | cons e es ih =>
      intro c h hmem
      simp only [List.mem_cons, not_or] at hmem
      rw [runW_cons]
      refine ih (step c e).1 ?_ hmem.2
      rw [step_isPreparing_of_ne c e (fun hx => hmem.1 hx.symm)]
      exact h

lemma runW_mem_prepared (t1 : List Ev) (c : St) (h : Ev.prepared ∈ t1) :
    (runW c t1).1.isPreparing = false := by
  obtain ⟨s, t, rfl⟩ := List.append_of_mem h
  rw [runW_append, runW_cons]
  exact runW_isPreparing_false t _ (step_prepared_isPreparing _)

lemma step_exec (c : St) (e : Ev) (ps : List (String × JSVal))
    (h : Eff.execute ps ∈ (step c e).2) :
    e = Ev.prepared ∨ c.isPreparing = false := by
  cases e with
  | write vals =>
      right
      simp only [step, write] at h
      split at h
      · simp at h
      · split at h
        · simp at h
        · rename_i hcond
          simpa using hcond
  | close =>
      exfalso
      simp only [step, close] at h
      split at h
      · simp at h
      · split at h <;> simp at h
  | prepared => exact Or.inl rfl
  | complete e' =>
      right
      simp only [step, onRequestComplete] at h
      split at h
      · simp at h
      · rename_i hcond
        simpa using hcond
  | errorMsg e' =>
      exfalso
      simp only [step, onErrorMsg] at h
      split at h
      · simp only [send] at h
        split at h <;> simp at h
      · simp at h

end Writer

end FTedious

namespace FTedious

namespace Reader

/-- Claim C1, counterexample: the claim asserts that for every interleaving the
pull results are the rows in arrival order followed by exactly one
end-of-stream result, never repeated.  On the valid trace with no rows, a
completion, and two pulls, the code answers end-of-stream twice (`read`
returns `cb(undefined)` again whenever `done` holds), so the result sequence
is not rows followed by a single end-of-stream. -/
theorem c1_counterexample :
    validFrom (init false) [Ev.complete none, Ev.pull, Ev.pull] = true ∧
    rowValues [Ev.complete none, Ev.pull, Ev.pull] = [] ∧
    pullResults (run (init false) [Ev.complete none, Ev.pull, Ev.pull]).2
      = [RRes.endOfStream, RRes.endOfStream] ∧
    [RRes.endOfStream, RRes.endOfStream]
      ≠ ([] : List JSVal).map RRes.row ++ [RRes.endOfStream] := by
  decide

/-- Claim C1 (amended): for every valid interleaving of truthy row arrivals
and pulls followed by the completion event and further pulls, the sequence of
pull results is the rows in arrival order followed by one end-of-stream
result per extra pull (so the first end-of-stream comes exactly after the
last row, no row follows an end-of-stream, but a pull after end-of-stream
reports end-of-stream again rather than never repeating). -/
theorem c1_pull_sequence (es1 : List Ev) (p2 k : Nat)
    (hph : ∀ e ∈ es1, phase1Ev e = true)
    (hval : validFrom (init false)
      (es1 ++ Ev.complete none :: List.replicate p2 Ev.pull) = true)
    (hk : 1 ≤ k)
    (hcount : pullCount es1 + p2 = (rowValues es1).length + k) :
    pullResults (run (init false)
        (es1 ++ Ev.complete none :: List.replicate p2 Ev.pull)).2
      = (rowValues es1).map RRes.row ++ List.replicate k RRes.endOfStream := by
  have hinv0 : Inv1 (init false) := ⟨rfl, rfl, rfl, Or.inl rfl⟩
  rw [validFrom_append, Bool.and_eq_true] at hval
  obtain ⟨d, hdle, hpr, hsr, hrecd, hinv3, hcbl, hcount1⟩ :=
    run1 es1 (init false) hph hval.1 hinv0
  have hA0 : (init false).received ++ rowValues es1 = rowValues es1 := by
    simp [init]
  rw [hA0] at hdle hpr hrecd hcbl
  obtain ⟨he1, hs1, hd1, hk1⟩ := hinv3
  have hsplit : (run (init false)
        (es1 ++ Ev.complete none :: List.replicate p2 Ev.pull)).2
      = (run (init false) es1).2
        ++ (run (run (init false) es1).1
              (Ev.complete none :: List.replicate p2 Ev.pull)).2 := by
    rw [run_append]
  have hsp : (run (run (init false) es1).1
        (Ev.complete none :: List.replicate p2 Ev.pull)).2
      = (step (run (init false) es1).1 (Ev.complete none)).2
        ++ (run (step (run (init false) es1).1 (Ev.complete none)).1
              (List.replicate p2 Ev.pull)).2 := by
    rw [run_cons]
  rw [hsplit, pullResults_append, hpr, hsp, pullResults_append]
  have hp0 : pendN (init false) = 0 := by simp [pendN, init]
  rcases hk1 with hcbn | ⟨hcbp, hrecempty⟩
  · -- no pull outstanding when completion arrives
    obtain ⟨g1, g2, g3, g4, g5, g6, g7⟩ :=
      step_complete_nocb (run (init false) es1).1 none hs1 hcbn
    have ge : (step (run (init false) es1).1 (Ev.complete none)).1.error = none := by
      rw [g3, he1]; rfl
    obtain ⟨r2p, r2s, r2r, r2e, r2d, r2c⟩ :=
      run2 p2 (step (run (init false) es1).1 (Ev.complete none)).1 ge g4 g2
    rw [g6, List.nil_append, r2p, g1, hrecd]
    have hd : d = pullCount es1 := by
      have h1 : pendN (run (init false) es1).1 = 0 := by simp [pendN, hcbn]
      omega
    have hlen : (List.drop d (rowValues es1)).length = (rowValues es1).length - d :=
      List.length_drop d _
    have htk : (List.drop d (rowValues es1)).take p2 = List.drop d (rowValues es1) := by
      apply List.take_of_length_le
      rw [hlen]
      omega
    have hrep : p2 - (List.drop d (rowValues es1)).length = k := by
      rw [hlen]
      omega
    rw [htk, hrep, ← List.append_assoc, ← List.map_append, List.take_append_drop]
  · -- a pull is outstanding when completion arrives: it resolves end-of-stream
    obtain ⟨g1, g2, g3, g4, g5, g6, g7⟩ :=
      step_complete_cb (run (init false) es1).1 none hs1 hcbp
    have hdA : d = (rowValues es1).length := hcbl hcbp
    have ge : (step (run (init false) es1).1 (Ev.complete none)).1.error = none := by
      rw [g3, he1]
    obtain ⟨r2p, r2s, r2r, r2e, r2d, r2c⟩ :=
      run2 p2 (step (run (init false) es1).1 (Ev.complete none)).1 ge g4 g2
    rw [g6, r2p, g1, hrecempty]
    have hd : d + 1 = pullCount es1 := by
      have h1 : pendN (run (init false) es1).1 = 1 := by simp [pendN, hcbp]
      omega
    have hp2 : k = p2 + 1 := by omega
    rw [hdA, List.take_length]
    simp only [List.take_nil, List.map_nil, List.nil_append, List.length_nil,
      Nat.sub_zero, hp2, List.replicate_succ]
    rfl

/-- Claim C1, witness for the amended statement: rows 1 and 2 interleaved with
three pulls and the completion deliver row 1, row 2, then end-of-stream. -/
theorem c1_pull_sequence_witness :
    pullResults (run (init false)
        ([Ev.row (.vnum 1), Ev.pull, Ev.row (.vnum 2)]
          ++ Ev.complete none :: List.replicate 2 Ev.pull)).2
      = (rowValues [Ev.row (.vnum 1), Ev.pull, Ev.row (.vnum 2)]).map RRes.row
        ++ List.replicate 1 RRes.endOfStream :=
  c1_pull_sequence [Ev.row (.vnum 1), Ev.pull, Ev.row (.vnum 2)] 2 1
    (by decide) (by decide) (by decide) (by decide)

end Reader

end FTedious

namespace FTedious

namespace Reader

/-- Claim C2, counterexample: the claim asserts buffered rows are drained
before a cached error is reported.  On the valid trace where row 1 is
buffered and the completion then carries error 7, the very next pull reports
the error (the `read` function checks `error` before `received`), and the
buffered row is still sitting in the buffer, never delivered. -/
theorem c2_counterexample :
    validFrom (init false) [Ev.row (.vnum 1), Ev.complete (some 7), Ev.pull] = true ∧
    pullResults (run (init false)
        [Ev.row (.vnum 1), Ev.complete (some 7), Ev.pull]).2 = [RRes.err 7] ∧
    (run (init false) [Ev.row (.vnum 1), Ev.complete (some 7), Ev.pull]).1.received
      = [JSVal.vnum 1] ∧
    RRes.err 7 ≠ RRes.row (JSVal.vnum 1) := by
  decide

/-- Claim C2 (amended): when the completion event carries an error while rows
are still buffered and no pull is outstanding, the NEXT pull resolves with
the error immediately — error-before-read ordering — and the buffered rows
remain undelivered. -/
theorem c2_error_first (vs : List JSVal) (e : Err)
    (hvs : ∀ v ∈ vs, truthy v = true) :
    pullResults (run (init false)
        (vs.map Ev.row ++ [Ev.complete (some e), Ev.pull])).2 = [RRes.err e] ∧
    (run (init false)
        (vs.map Ev.row ++ [Ev.complete (some e), Ev.pull])).1.received = vs := by
  have hinv0 : Inv1 (init false) := ⟨rfl, rfl, rfl, Or.inl rfl⟩
  obtain ⟨hrp, hrs, hrr, hre, hrst, hrd, hrc⟩ := runRows vs (init false) hvs hinv0 rfl
  obtain ⟨g1, g2, g3, g4, g5, g6, g7⟩ :=
    step_complete_nocb (run (init false) (vs.map Ev.row)).1 (some e) hrst hrc
  have gerr : (step (run (init false) (vs.map Ev.row)).1
      (Ev.complete (some e))).1.error = some e := by
    rw [g3, hre]; rfl
  obtain ⟨q1, q2, q3, q4, q5, q6, q7⟩ :=
    step_pull_err (step (run (init false) (vs.map Ev.row)).1
      (Ev.complete (some e))).1 e gerr
  have h1 : (run (init false) (vs.map Ev.row ++ [Ev.complete (some e), Ev.pull])).2
      = (run (init false) (vs.map Ev.row)).2
        ++ (run (run (init false) (vs.map Ev.row)).1
              [Ev.complete (some e), Ev.pull]).2 := by
    rw [run_append]
  have h1f : (run (init false) (vs.map Ev.row ++ [Ev.complete (some e), Ev.pull])).1
      = (run (run (init false) (vs.map Ev.row)).1
          [Ev.complete (some e), Ev.pull]).1 := by
    rw [run_append]
  have h2 : (run (run (init false) (vs.map Ev.row)).1
        [Ev.complete (some e), Ev.pull]).2
      = (step (run (init false) (vs.map Ev.row)).1 (Ev.complete (some e))).2
        ++ ((step (step (run (init false) (vs.map Ev.row)).1
              (Ev.complete (some e))).1 Ev.pull).2 ++ ([] : List Eff)) := rfl
  have h3 : (run (run (init false) (vs.map Ev.row)).1
        [Ev.complete (some e), Ev.pull]).1
      = (step (step (run (init false) (vs.map Ev.row)).1
          (Ev.complete (some e))).1 Ev.pull).1 := rfl
  constructor
  · rw [h1, pullResults_append, hrp, List.nil_append, h2, pullResults_append,
      g6, List.nil_append, pullResults_append, q6]
    rfl
  · rw [h1f, h3, q1, g1, hrr]
    simp [init]

/-- Claim C2, witness: with row 1 buffered and completion error 7, the next
pull resolves with error 7 and the row stays in the buffer. -/
theorem c2_error_first_witness :
    pullResults (run (init false)
        ([JSVal.vnum 1].map Ev.row ++ [Ev.complete (some 7), Ev.pull])).2
      = [RRes.err 7] ∧
    (run (init false)
        ([JSVal.vnum 1].map Ev.row ++ [Ev.complete (some 7), Ev.pull])).1.received
      = [JSVal.vnum 1] :=
  c2_error_first [JSVal.vnum 1] 7 (by decide)

/-- Claim C3, counterexample: the claim asserts the buffer length never
exceeds `high = 2` for every sequence of push/shift operations, but three
pushes (three row events with no pull — the row handler pushes
unconditionally even while paused) leave three rows in the buffer. -/
theorem c3_counterexample :
    (runBuf (init false)
        [BufOp.push (.vnum 1), BufOp.push (.vnum 1), BufOp.push (.vnum 1)]).received.length
      = 3 ∧
    ¬ (3 ≤ high) ∧
    (run (init false)
        [Ev.row (.vnum 1), Ev.row (.vnum 1), Ev.row (.vnum 1)]).1.received.length
      = 3 := by
  decide

/-- Claim C3 (amended): provided the transport honors `pause` — no push is
performed while the socket is paused — the buffer length never exceeds
`high`, `pause` is issued exactly on the push that makes the length reach
`high`, and `resume` is issued exactly on the shift that takes the length
from `low + 1` down to `low`. -/
theorem c3_watermarks (ops : List BufOp)
    (hval : validBuf (init false) ops = true) :
    (∀ i, (runBuf (init false) (ops.take i)).received.length ≤ high) ∧
    (∀ i, i < ops.length →
      ((Eff.pause ∈ bufEffs (init false) ops i) ↔
        ((runBuf (init false) (ops.take i)).received.length + 1 = high ∧
         (runBuf (init false) (ops.take (i + 1))).received.length = high)) ∧
      ((Eff.resume ∈ bufEffs (init false) ops i) ↔
        (ops.getD i BufOp.shift = BufOp.shift ∧
         (runBuf (init false) (ops.take i)).received.length = low + 1 ∧
         (runBuf (init false) (ops.take (i + 1))).received.length = low))) := by
  have hinv : BufInv (init false) := by
    constructor
    · decide
    · intro h
      exact absurd h (by decide)
  obtain ⟨hA, hB⟩ := c3_aux ops (init false) hinv hval
  exact ⟨fun i => (hA i).1, hB⟩

/-- Claim C3, witness: on push, push, shift, shift the length stays within
the bound and the second push is exactly the operation that emits pause. -/
theorem c3_watermarks_witness :
    ((runBuf (init false)
        ([BufOp.push (.vnum 1), BufOp.push (.vnum 2), BufOp.shift,
          BufOp.shift].take 2)).received.length ≤ high) ∧
    ((Eff.pause ∈ bufEffs (init false)
        [BufOp.push (.vnum 1), BufOp.push (.vnum 2), BufOp.shift, BufOp.shift] 1) ↔
      ((runBuf (init false)
          ([BufOp.push (.vnum 1), BufOp.push (.vnum 2), BufOp.shift,
            BufOp.shift].take 1)).received.length + 1 = high ∧
       (runBuf (init false)
          ([BufOp.push (.vnum 1), BufOp.push (.vnum 2), BufOp.shift,
            BufOp.shift].take 2)).received.length = high)) :=
  ⟨(c3_watermarks _ (by decide)).1 2,
   ((c3_watermarks _ (by decide)).2 1 (by decide)).1⟩

end Reader

end FTedious

namespace FTedious

namespace Reader

/-- Claim C6, counterexample: the claim asserts every pull after a stop
reports end-of-stream.  On the valid trace where row 1 is buffered before
`stop()` and the completion then carries error 7, the stop resolves cleanly
but the next pull returns the buffered row 1, not end-of-stream. -/
theorem c6_counterexample :
    validFrom (init false)
      [Ev.row (.vnum 1), Ev.stop, Ev.complete (some 7), Ev.pull] = true ∧
    stopResults (run (init false)
        [Ev.row (.vnum 1), Ev.stop, Ev.complete (some 7), Ev.pull]).2
      = [RRes.endOfStream] ∧
    pullResults (run (init false)
        [Ev.row (.vnum 1), Ev.stop, Ev.complete (some 7), Ev.pull]).2
      = [RRes.row (.vnum 1)] ∧
    RRes.row (.vnum 1) ≠ RRes.endOfStream := by
  decide

/-- Claim C6 (amended): if `stop()` is invoked before completion, a
subsequent completion error is never surfaced — the stop resolves as clean
end-of-stream and no pull ever reports the error — and rows arriving after
the stop are never enqueued; however, pulls after the stop first drain the
rows that were buffered before the stop and only then report end-of-stream. -/
theorem c6_stop_suppresses_error (vs ws : List JSVal) (e : Err) (p : Nat)
    (hvs : ∀ v ∈ vs, truthy v = true) :
    stopResults (run (init false) (vs.map Ev.row
        ++ Ev.stop :: (ws.map Ev.row
          ++ Ev.complete (some e) :: List.replicate p Ev.pull))).2
      = [RRes.endOfStream] ∧
    pullResults (run (init false) (vs.map Ev.row
        ++ Ev.stop :: (ws.map Ev.row
          ++ Ev.complete (some e) :: List.replicate p Ev.pull))).2
      = ((vs.take p).map RRes.row)
        ++ List.replicate (p - vs.length) RRes.endOfStream ∧
    (run (init false) (vs.map Ev.row
        ++ Ev.stop :: (ws.map Ev.row
          ++ Ev.complete (some e) :: List.replicate p Ev.pull))).1.received
      = vs.drop p := by
  have hinv0 : Inv1 (init false) := ⟨rfl, rfl, rfl, Or.inl rfl⟩
  set s1 := (run (init false) (vs.map Ev.row)).1 with hs1
  set s2 := (step s1 Ev.stop).1 with hs2
  set s3 := (step s2 (Ev.complete (some e))).1 with hs3
  obtain ⟨hrp, hrs, hrr, hre, hrst, hrd, hrc⟩ := runRows vs (init false) hvs hinv0 rfl
  obtain ⟨t1, t2, t3, t4, t5, t6, t7⟩ := step_stop_notdone s1 hrd
  have hws := runRowsStopped ws s2 t5
  obtain ⟨u1, u2, u3, u4, u5, u6, u7⟩ := step_complete_stopcb s2 (some e) t5 t2
  have he3 : s3.error = none := by rw [u3, t3, hre]
  obtain ⟨r2p, r2s, r2r, r2e, r2d, r2c⟩ := run2 p s3 he3 u4 u2
  have hrec3 : s3.received = vs := by
    rw [u1, t1, hrr]
    simp [init]
  have hA1 : (run (init false) (vs.map Ev.row
      ++ Ev.stop :: (ws.map Ev.row
        ++ Ev.complete (some e) :: List.replicate p Ev.pull))).1
      = (run s1 (Ev.stop :: (ws.map Ev.row
          ++ Ev.complete (some e) :: List.replicate p Ev.pull))).1 := by
    rw [run_append]
  have hA2 : (run s1 (Ev.stop :: (ws.map Ev.row
      ++ Ev.complete (some e) :: List.replicate p Ev.pull))).1
      = (run s2 (ws.map Ev.row
          ++ Ev.complete (some e) :: List.replicate p Ev.pull)).1 := by
    rw [run_cons]
  have hA3 : (run s2 (ws.map Ev.row
      ++ Ev.complete (some e) :: List.replicate p Ev.pull)).1
      = (run (run s2 (ws.map Ev.row)).1
          (Ev.complete (some e) :: List.replicate p Ev.pull)).1 := by
    rw [run_append]
  have hA4 : (run s2 (ws.map Ev.row)).1 = s2 := by rw [hws]
  have hA5 : (run s2 (Ev.complete (some e) :: List.replicate p Ev.pull)).1
      = (run s3 (List.replicate p Ev.pull)).1 := by
    rw [run_cons]
  have hB1 : (run (init false) (vs.map Ev.row
      ++ Ev.stop :: (ws.map Ev.row
        ++ Ev.complete (some e) :: List.replicate p Ev.pull))).2
      = (run (init false) (vs.map Ev.row)).2
        ++ (run s1 (Ev.stop :: (ws.map Ev.row
            ++ Ev.complete (some e) :: List.replicate p Ev.pull))).2 := by
    rw [run_append]
  have hB2 : (run s1 (Ev.stop :: (ws.map Ev.row
      ++ Ev.complete (some e) :: List.replicate p Ev.pull))).2
      = (step s1 Ev.stop).2 ++ (run s2 (ws.map Ev.row
          ++ Ev.complete (some e) :: List.replicate p Ev.pull)).2 := by
    rw [run_cons]
  have hB3 : (run s2 (ws.map Ev.row
      ++ Ev.complete (some e) :: List.replicate p Ev.pull)).2
      = (run s2 (ws.map Ev.row)).2
        ++ (run (run s2 (ws.map Ev.row)).1
            (Ev.complete (some e) :: List.replicate p Ev.pull)).2 := by
    rw [run_append]
  have hB4 : (run s2 (ws.map Ev.row)).2 = [] := by rw [hws]
  have hB5 : (run s2 (Ev.complete (some e) :: List.replicate p Ev.pull)).2
      = (step s2 (Ev.complete (some e))).2
        ++ (run s3 (List.replicate p Ev.pull)).2 := by
    rw [run_cons]
  have hE : (run (init false) (vs.map Ev.row
      ++ Ev.stop :: (ws.map Ev.row
        ++ Ev.complete (some e) :: List.replicate p Ev.pull))).2
      = (run (init false) (vs.map Ev.row)).2
        ++ ((step s1 Ev.stop).2
          ++ ([] ++ ((step s2 (Ev.complete (some e))).2
            ++ (run s3 (List.replicate p Ev.pull)).2))) := by
    rw [hB1, hB2, hB3, hA4, hB4, hB5]
  refine ⟨?_, ?_, ?_⟩
  · rw [hE]
    simp only [stopResults_append, List.nil_append]
    rw [hrs, t7, u7, r2s]
    simp [stopResults]
  · rw [hE]
    simp only [pullResults_append, List.nil_append]
    rw [hrp, t6, u6, r2p, hrec3]
    simp
  · rw [hA1, hA2, hA3, hA4, hA5, r2r, hrec3]

/-- Claim C6, witness: row 1 buffered, stop, late row 2 discarded, completion
with error 7 resolves the stop cleanly, then two pulls return row 1 and
end-of-stream, with nothing left buffered. -/
theorem c6_stop_suppresses_error_witness :
    stopResults (run (init false) ([JSVal.vnum 1].map Ev.row
        ++ Ev.stop :: ([JSVal.vnum 2].map Ev.row
          ++ Ev.complete (some 7) :: List.replicate 2 Ev.pull))).2
      = [RRes.endOfStream] ∧
    pullResults (run (init false) ([JSVal.vnum 1].map Ev.row
        ++ Ev.stop :: ([JSVal.vnum 2].map Ev.row
          ++ Ev.complete (some 7) :: List.replicate 2 Ev.pull))).2
      = (([JSVal.vnum 1].take 2).map RRes.row)
        ++ List.replicate (2 - [JSVal.vnum 1].length) RRes.endOfStream ∧
    (run (init false) ([JSVal.vnum 1].map Ev.row
        ++ Ev.stop :: ([JSVal.vnum 2].map Ev.row
          ++ Ev.complete (some 7) :: List.replicate 2 Ev.pull))).1.received
      = [JSVal.vnum 1].drop 2 :=
  c6_stop_suppresses_error [JSVal.vnum 1] [JSVal.vnum 2] 7 2 (by decide)

end Reader

end FTedious

namespace FTedious

namespace Reader

/-- Claim C10, counterexample: the claim asserts that after a falsy row the
(current or next) pull resolves as end-of-stream.  On the valid trace where
truthy row 1 is buffered and then falsy row `null` arrives, the next pull
returns the buffered row 1, not end-of-stream (the falsy row only sets
`done`). -/
theorem c10_counterexample :
    truthy JSVal.vnull = false ∧
    validFrom (init false) [Ev.row (.vnum 1), Ev.row .vnull, Ev.pull] = true ∧
    pullResults (run (init false)
        [Ev.row (.vnum 1), Ev.row .vnull, Ev.pull]).2 = [RRes.row (.vnum 1)] ∧
    RRes.row (.vnum 1) ≠ RRes.endOfStream := by
  decide

/-- Claim C10 (amended): a falsy row value is never enqueued nor delivered:
it sets `done`, an outstanding pull resolves immediately as end-of-stream,
and otherwise pulls first drain the previously buffered rows and only then
resolve as end-of-stream. -/
theorem c10_falsy_row (vs : List JSVal) (f : JSVal) (p : Nat)
    (hvs : ∀ v ∈ vs, truthy v = true) (hf : truthy f = false) :
    pullResults (run (init false) [Ev.pull, Ev.row f]).2 = [RRes.endOfStream] ∧
    (run (init false) (vs.map Ev.row ++ [Ev.row f])).1.received = vs ∧
    (run (init false) (vs.map Ev.row ++ [Ev.row f])).1.done = true ∧
    pullResults (run (init false)
        (vs.map Ev.row ++ Ev.row f :: List.replicate p Ev.pull)).2
      = ((vs.take p).map RRes.row)
        ++ List.replicate (p - vs.length) RRes.endOfStream := by
  have hinv0 : Inv1 (init false) := ⟨rfl, rfl, rfl, Or.inl rfl⟩
  obtain ⟨hrp, hrs, hrr, hre, hrst, hrd, hrc⟩ := runRows vs (init false) hvs hinv0 rfl
  obtain ⟨a1, a2, a3, a4, a5, a6, a7⟩ := step_pull_store (init false) rfl rfl rfl
  obtain ⟨b1, b2, b3, b4, b5, b6, b7⟩ :=
    step_row_falsy_cb (step (init false) Ev.pull).1 f (by rw [a5]; rfl) a2 hf
  obtain ⟨c1, c2, c3, c4, c5, c6, c7⟩ :=
    step_row_falsy_nocb (run (init false) (vs.map Ev.row)).1 f hrst hrc hf
  have hrec2 : (step (run (init false) (vs.map Ev.row)).1 (Ev.row f)).1.received
      = vs := by
    rw [c1, hrr]
    simp [init]
  have herr2 : (step (run (init false) (vs.map Ev.row)).1 (Ev.row f)).1.error
      = none := by
    rw [c3, hre]
  obtain ⟨r2p, r2s, r2r, r2e, r2d, r2c⟩ :=
    run2 p (step (run (init false) (vs.map Ev.row)).1 (Ev.row f)).1 herr2 c4 c2
  refine ⟨?_, ?_, ?_, ?_⟩
  · have hEE : (run (init false) [Ev.pull, Ev.row f]).2
        = (step (init false) Ev.pull).2
          ++ ((step (step (init false) Ev.pull).1 (Ev.row f)).2
            ++ ([] : List Eff)) := rfl
    rw [hEE, pullResults_append, a6, List.nil_append, pullResults_append, b6]
    rfl
  · have h2f : (run (init false) (vs.map Ev.row ++ [Ev.row f])).1
        = (step (run (init false) (vs.map Ev.row)).1 (Ev.row f)).1 := by
      rw [run_append]
      rfl
    rw [h2f, hrec2]
  · have h2f : (run (init false) (vs.map Ev.row ++ [Ev.row f])).1
        = (step (run (init false) (vs.map Ev.row)).1 (Ev.row f)).1 := by
      rw [run_append]
      rfl
    rw [h2f, c4]
  · have hB1 : (run (init false)
        (vs.map Ev.row ++ Ev.row f :: List.replicate p Ev.pull)).2
        = (run (init false) (vs.map Ev.row)).2
          ++ (run (run (init false) (vs.map Ev.row)).1
              (Ev.row f :: List.replicate p Ev.pull)).2 := by
      rw [run_append]
    have hB2 : (run (run (init false) (vs.map Ev.row)).1
        (Ev.row f :: List.replicate p Ev.pull)).2
        = (step (run (init false) (vs.map Ev.row)).1 (Ev.row f)).2
          ++ (run (step (run (init false) (vs.map Ev.row)).1 (Ev.row f)).1
              (List.replicate p Ev.pull)).2 := by
      rw [run_cons]
    rw [hB1, pullResults_append, hrp, List.nil_append, hB2, pullResults_append,
      c6, List.nil_append, r2p, hrec2]

/-- Claim C10, witness: with row 1 buffered, falsy row `null` sets done
without being enqueued; a stored pull resolves end-of-stream at once, and
after the falsy row two pulls return row 1 then end-of-stream. -/
theorem c10_falsy_row_witness :
    pullResults (run (init false) [Ev.pull, Ev.row JSVal.vnull]).2
      = [RRes.endOfStream] ∧
    (run (init false)
        ([JSVal.vnum 1].map Ev.row ++ [Ev.row JSVal.vnull])).1.received
      = [JSVal.vnum 1] ∧
    (run (init false)
        ([JSVal.vnum 1].map Ev.row ++ [Ev.row JSVal.vnull])).1.done = true ∧
    pullResults (run (init false) ([JSVal.vnum 1].map Ev.row
        ++ Ev.row JSVal.vnull :: List.replicate 2 Ev.pull)).2
      = (([JSVal.vnum 1].take 2).map RRes.row)
        ++ List.replicate (2 - [JSVal.vnum 1].length) RRes.endOfStream :=
  c10_falsy_row [JSVal.vnum 1] JSVal.vnull 2 (by decide) (by decide)

/-- Claim C8, counterexample: the claim asserts the release hook runs only
after the terminal pull or stop.  On the trace with rows 1, 2 and a first
pull, the `closeCall` effect already follows the first pull resolution
(row 1), while later pulls still return row 2 and end-of-stream, so the hook
ran strictly before the terminal pull. -/
theorem c8_counterexample :
    (run (init true) [Ev.row (.vnum 1), Ev.row (.vnum 2), Ev.pull]).2
      = [Eff.pause, Eff.resolve CbKind.pull none (some (.vnum 1)),
         Eff.closeCall] ∧
    pullResults (run (init true)
        [Ev.row (.vnum 1), Ev.row (.vnum 2), Ev.pull, Ev.pull,
         Ev.complete none, Ev.pull]).2
      = [RRes.row (.vnum 1), RRes.row (.vnum 2), RRes.endOfStream] := by
  decide

/-- Claim C8 (amended): when a release hook is supplied, it is invoked
exactly once, at the first read or stop call whose result is delivered to the
caller — on every exit path, and never when no call has yet resolved; when no
hook is supplied, it is never invoked. -/
theorem c8_close_hook_once (t : List Ev) :
    ((run (init true) t).2.count Eff.closeCall
      = if (run (init true) t).2.any isResolve then 1 else 0) ∧
    (run (init false) t).2.count Eff.closeCall = 0 := by
  constructor
  · rcases run_hook_true t (init true) rfl with ⟨h1, h2, -⟩ | ⟨h1, h2⟩
    · rw [List.count_eq_zero.mpr h2, h1]
      rfl
    · rw [h2, h1]
      rfl
  · exact List.count_eq_zero.mpr (run_hook_false t (init false) rfl).2

end Reader

end FTedious

namespace FTedious

namespace Writer

/-- Claim C4: the writer never issues an execute command before the prepared
event has fired: whenever a step of any writer trace emits an execute, the
prepared event is in the trace up to and including that step; and a write
arriving while `isPreparing` holds merely stores its parameter set as the
single pending set, issuing nothing — the pending execute is issued only by
the prepared handler. -/
theorem c4_no_execute_before_prepared (t1 : List Ev) (e : Ev)
    (ps : List (String × JSVal))
    (hex : Eff.execute ps ∈ (step (runW init t1).1 e).2) :
    Ev.prepared ∈ t1 ++ [e] ∧
    (∀ (c : St) (vals : List JSVal), c.done = false → c.isPreparing = true →
      step c (.write vals)
        = ({ c with callback := true,
                    pendingParamValues := some (mkParams vals) }, [])) := by
  constructor
  · rcases step_exec _ e ps hex with he | hprep
    · subst he
      exact List.mem_append.mpr (Or.inr (by simp))
    · by_cases hmem : Ev.prepared ∈ t1
      · exact List.mem_append.mpr (Or.inl hmem)
      · exfalso
        have hp := runW_notPrepared t1 init rfl hmem
        rw [hp] at hprep
        cases hprep
  · intro c vals hdone hprep
    simp [step, write, hdone, hprep]

/-- Claim C4, witness: after the prepared event, a write issues its execute
(so the execute of this trace indeed has prepared before it), and the
state-level branch for a preparing write holds at the initial state. -/
theorem c4_no_execute_before_prepared_witness :
    Ev.prepared ∈ [Ev.prepared] ++ [Ev.write [JSVal.vnum 1]] :=
  (c4_no_execute_before_prepared [Ev.prepared] (Ev.write [JSVal.vnum 1])
    (mkParams [JSVal.vnum 1]) (by decide)).1

/-- Claim C5: a close (end-of-stream sentinel) received while the request is
still preparing does not resolve and issues nothing — not even on a
subsequent session error, whose listener was detached — until prepared
fires, at which point exactly one unprepare is issued; the close call
resolves on the following completion, and no execute is ever issued. -/
theorem c5_close_while_preparing (e : Option Err) (e2 : Err) :
    (runW init [Ev.close]).2 = [] ∧
    (runW init [Ev.close]).1.callback = true ∧
    (runW init [Ev.close, Ev.errorMsg e2]).2 = [] ∧
    (runW init [Ev.close, Ev.prepared]).2 = [Eff.unprepare] ∧
    (runW init [Ev.close, Ev.prepared, Ev.complete e]).2
      = [Eff.unprepare, Eff.resolve e] ∧
    (∀ ps, Eff.execute ps ∉
      (runW init [Ev.close, Ev.prepared, Ev.complete e]).2) := by
  refine ⟨rfl, rfl, rfl, rfl, rfl, ?_⟩
  intro ps
  show Eff.execute ps ∉ [Eff.unprepare, Eff.resolve e]
  simp

/-- Claim C7: the request completion channel is disambiguated by
`isPreparing`: a firing before the prepared event (the prepare confirmation,
under the protocol assumption that it precedes the prepared event) is
swallowed and resolves nothing, while any firing after the prepared event
resolves the currently outstanding write/close call. -/
theorem c7_completion_disambiguation (t1 : List Ev) (e : Option Err) :
    (Ev.prepared ∉ t1 →
      (step (runW init t1).1 (Ev.complete e)).2 = []) ∧
    (Ev.prepared ∈ t1 → (runW init t1).1.callback = true →
      (step (runW init t1).1 (Ev.complete e)).2 = [Eff.resolve e]) := by
  constructor
  · intro hmem
    have hprep := runW_notPrepared t1 init rfl hmem
    simp [step, onRequestComplete, hprep]
  · intro hmem hcb
    have hprep := runW_mem_prepared t1 init hmem
    simp [step, onRequestComplete, hprep, send, hcb]

/-- Claim C7, witness: the first completion firing (before prepared) emits
nothing, while a completion after prepared with a write outstanding resolves
it. -/
theorem c7_completion_disambiguation_witness :
    (step (runW init []).1 (Ev.complete (some 5))).2 = [] ∧
    (step (runW init [Ev.prepared, Ev.write [JSVal.vnum 1]]).1
        (Ev.complete none)).2 = [Eff.resolve none] :=
  ⟨(c7_completion_disambiguation [] (some 5)).1 (by decide),
   (c7_completion_disambiguation [Ev.prepared, Ev.write [JSVal.vnum 1]] none).2
     (by decide) (by decide)⟩

/-- Claim C9: once the writer has processed the end-of-stream sentinel
(`done` is true), any further write or close call is a pure no-op: the state
is unchanged and no command or resolution is emitted (its callback is never
stored, hence never invoked). -/
theorem c9_write_after_done_noop (c : St) (vals : List JSVal)
    (h : c.done = true) :
    step c (Ev.write vals) = (c, []) ∧ step c Ev.close = (c, []) := by
  constructor
  · simp [step, write, h]
  · simp [step, close, h]

/-- Claim C9, witness: at a done state, both a data write and a second
sentinel leave the state untouched and emit nothing. -/
theorem c9_write_after_done_noop_witness :
    step { init with done := true } (Ev.write [JSVal.vnum 1])
      = ({ init with done := true }, []) ∧
    step { init with done := true } Ev.close
      = ({ init with done := true }, []) :=
  c9_write_after_done_noop { init with done := true } [JSVal.vnum 1] rfl

end Writer

end FTedious
